import Mathlib

/-!
Verification of the tagged-text response transformer and the request
endpoints of `src/app.py` (SpeakNest AI backend).

The Python function `extract_segments` scans its input with the regular
expression `\[(es|en)\](.*?)(?=\[|$|\n\n)` under `re.DOTALL` using
`re.findall`, then keeps the whitespace-stripped capture of every match
whose stripped capture is non-empty.  We embed that scan as a
structurally recursive state machine over `List Char`:

* the lazy group `(.*?)` followed by the lookahead `(?=\[|$|\n\n)` stops
  a capture at the first position whose suffix starts with `[`, is the
  end of the string, is a single trailing newline (Python `$` without
  `re.MULTILINE` also matches just before a final newline), or starts
  with a blank line `\n\n`;
* `re.findall` resumes scanning at the end of each match, which is
  exactly the boundary position because the lookahead is zero-width.

The endpoints treat the Gemini call as an opaque collaborator; it is
modelled by an oracle value (`GeminiOutcome`) saying whether the call
returned a text or raised an exception with a message.  Each endpoint
returns its JSON envelope together with a flag recording whether the
collaborator was invoked on that request.
-/

/-- Python `$` lookahead alternative `(?=\[|$|\n\n)` evaluated at the
position whose remaining suffix is the argument: the next char is `[`,
or we are at the end of the string, or just before a final newline, or
at a blank line. -/
def isBoundary : List Char → Bool
  | [] => true
  | [c] => c = '[' || c = '\n'
  | a :: b :: _ => a = '[' || (a = '\n' && b = '\n')

/-- The lazy capture of `(.*?)(?=\[|$|\n\n)`: the longest prefix with no
internal boundary, paired with the remaining suffix (which begins at the
first boundary). -/
def captureContent : List Char → List Char × List Char
  | [] => ([], [])
  | c :: rest =>
    if isBoundary (c :: rest) then ([], c :: rest)
    else
      let p := captureContent rest
      (c :: p.1, p.2)

/-- Does the pattern `\[(es|en)\]` match at the start of the suffix? -/
def startsTag : List Char → Bool
  | c1 :: c2 :: c3 :: c4 :: _ =>
      c1 = '[' && c2 = 'e' && (c3 = 's' || c3 = 'n') && c4 = ']'
  | _ => false

/-- Scanner state: looking for the next tag, or capturing the text of a
tag already matched (accumulator reversed). -/
inductive ScanMode where
  | seek : ScanMode
  | cap : String → List Char → ScanMode

/-- Segments completed when the scan stops in the given state. -/
def flush : ScanMode → List (String × List Char)
  | ScanMode.seek => []
  | ScanMode.cap lang acc => [(lang, acc.reverse)]

/-- One left-to-right pass of `re.findall` over the remaining input. -/
def scanAux : ScanMode → List Char → List (String × List Char)
  | m, [] => flush m
  | m, c1 :: c2 :: c3 :: c4 :: rest =>
    if c1 = '[' && c2 = 'e' && (c3 = 's' || c3 = 'n') && c4 = ']' then
      flush m ++ scanAux (ScanMode.cap (if c3 = 's' then "es" else "en") []) rest
    else
      match m with
      | ScanMode.seek => scanAux ScanMode.seek (c2 :: c3 :: c4 :: rest)
      | ScanMode.cap lang acc =>
        if isBoundary (c1 :: c2 :: c3 :: c4 :: rest) then
          (lang, acc.reverse) :: scanAux ScanMode.seek (c2 :: c3 :: c4 :: rest)
        else
          scanAux (ScanMode.cap lang (c1 :: acc)) (c2 :: c3 :: c4 :: rest)
  | m, c :: rest =>
    match m with
    | ScanMode.seek => scanAux ScanMode.seek rest
    | ScanMode.cap lang acc =>
      if isBoundary (c :: rest) then
        (lang, acc.reverse) :: scanAux ScanMode.seek rest
      else
        scanAux (ScanMode.cap lang (c :: acc)) rest

/-- Embeds `re.findall(r'\[(es|en)\](.*?)(?=\[|$|\n\n)', text, re.DOTALL)`. -/
def findTagged (cs : List Char) : List (String × List Char) :=
  scanAux ScanMode.seek cs

/-- Python `str.strip()` on a list of characters (leading and trailing
whitespace removed). -/
def pyStrip (l : List Char) : List Char :=
  ((l.dropWhile Char.isWhitespace).reverse.dropWhile Char.isWhitespace).reverse

/-- Python `str.strip()` at the string level. -/
def pyStripS (s : String) : String :=
  String.mk (pyStrip s.toList)

/-- The list comprehension of `extract_segments`:
`[(lang, text.strip()) for lang, text in segments if text.strip()]`. -/
def segKeep (p : String × List Char) : Option (String × List Char) :=
  if pyStrip p.2 = [] then none else some (p.1, pyStrip p.2)

/-- The body of `extract_segments` at the character-list level. -/
def extractSegs (cs : List Char) : List (String × List Char) :=
  (findTagged cs).filterMap segKeep

/-- Embeds `extract_segments` from `src/app.py` lines 22-26. -/
def extract_segments (s : String) : List (String × String) :=
  (extractSegs s.toList).map fun p => (p.1, String.mk p.2)

/-- Two consecutive newline characters occur somewhere in the list. -/
def hasBlankLine : List Char → Bool
  | a :: b :: rest => (a = '\n' && b = '\n') || hasBlankLine (b :: rest)
  | _ => false

/-- A prefix test on character lists (`l₁` starts `l₂`). -/
def isPre : List Char → List Char → Bool
  | [], _ => true
  | _ :: _, [] => false
  | a :: as, b :: bs => a = b && isPre as bs

/-- Python `needle in hay` substring containment on character lists. -/
def hasSub (needle : List Char) : List Char → Bool
  | [] => needle.isEmpty
  | c :: rest => isPre needle (c :: rest) || hasSub needle rest

/-- Python `'[color=ff0000]' in s`: the in-band error-marker check used
by the endpoints to derive the `success` field. -/
def hasMarker (s : String) : Bool :=
  hasSub "[color=ff0000]".toList s.toList

/-- One wire record `{text, lang, duration}` of a JSON envelope. -/
structure ResponsePart where
  text : String
  lang : String
  duration : Nat
deriving DecidableEq

/-- The JSON key under which an endpoint returns its part list. -/
inductive FieldName where
  | response : FieldName
  | feedback : FieldName
deriving DecidableEq

/-- The JSON envelope an endpoint serializes:
`{'success': ..., <field>: [parts]}`. -/
structure Envelope where
  success : Bool
  field : FieldName
  parts : List ResponsePart
deriving DecidableEq

/-- Embeds `error_response` from `src/app.py` lines 28-34 (the HTTP status code
accompanying the body is not modelled; the claims concern the body). -/
def error_response (message : String) : Envelope :=
  { success := false
    field := FieldName.response
    parts := [{ text := "[color=ff0000]" ++ (message ++ "[/color]")
                lang := "es", duration := 0 }] }

/-- The external collaborator: a Gemini call either produces a reply
text or raises an exception carrying a message. -/
inductive GeminiOutcome where
  | ok : String → GeminiOutcome
  | exn : String → GeminiOutcome
deriving DecidableEq

/-- Embeds `[{'text': text, 'lang': lang, 'duration': 0} for lang, text in segments]`. -/
def mkParts (segments : List (String × String)) : List ResponsePart :=
  segments.map fun p => { text := p.2, lang := p.1, duration := 0 }

/-- Embeds `process_with_gemini` from `src/app.py` lines 45-78, returning the
reply string together with whether the collaborator was invoked.
`audio_to_base64` cannot fail on a byte string, so its failure branch is
unreachable; a raised exception is caught and rendered as the
`Gemini error` marker string. -/
def process_with_gemini (audio_data : List Nat) (gemini : GeminiOutcome) :
    String × Bool :=
  if audio_data.length = 0 then
    ("[color=ff0000]Error: Empty audio data[/color]", false)
  else
    match gemini with
    | GeminiOutcome.ok t => (t, true)
    | GeminiOutcome.exn e => ("[color=ff0000]Gemini error: " ++ (e ++ "[/color]"), true)

/-- Embeds `process_conversation_with_gemini` from `src/app.py` lines 80-132:
returns `(response_text, response_parts)` plus the collaborator-call
flag.  The prompt construction does not affect the modelled output. -/
def process_conversation_with_gemini (audio_data : List Nat)
    (gemini : GeminiOutcome) : (String × List ResponsePart) × Bool :=
  if audio_data.length < 100 then
    (("[color=ff0000]Error: Empty or too short audio[/color]",
      [{ text := "[color=ff0000]Empty audio[/color]", lang := "es", duration := 0 }]),
     false)
  else
    let r := process_with_gemini audio_data gemini
    if r.1 = "" then
      (("[color=ff0000]Empty response[/color]",
        [{ text := "[color=ff0000]Empty response[/color]", lang := "es", duration := 0 }]),
       r.2)
    else
      let segments := extract_segments r.1
      if segments = [] then
        (("[color=ff0000]Invalid format[/color]",
          [{ text := "[color=ff0000]Invalid format[/color]", lang := "es", duration := 0 }]),
         r.2)
      else
        ((r.1, mkParts segments), r.2)

/-- Embeds `process_intro_text` from `src/app.py` lines 134-175: the reply text
is stripped, then checked for emptiness and parsed into segments; an
exception is caught and wrapped in marker strings. -/
def process_intro_text (gemini : GeminiOutcome) : String × List ResponsePart :=
  match gemini with
  | GeminiOutcome.exn e =>
      ("[color=ff0000]Error: " ++ (e ++ "[/color]"),
       [{ text := "[color=ff0000]" ++ (e ++ "[/color]"), lang := "es", duration := 0 }])
  | GeminiOutcome.ok t =>
      let response_text := pyStripS t
      if response_text = "" then
        ("[color=ff0000]Empty response[/color]",
         [{ text := "[color=ff0000]Empty response[/color]", lang := "es", duration := 0 }])
      else
        let segments := extract_segments response_text
        if segments = [] then
          ("[color=ff0000]Invalid format[/color]",
           [{ text := "[color=ff0000]Invalid format[/color]", lang := "es", duration := 0 }])
        else
          (response_text, mkParts segments)

/-- The request data of `/process_intro` that the handler inspects. -/
structure IntroRequest where
  isJson : Bool
  hasTextAndScenario : Bool
deriving DecidableEq

/-- The request data of `/process_conversation` and `/process_audio`
that the handlers inspect (form fields such as the scenario do not
affect the modelled behaviour). -/
structure AudioUploadRequest where
  hasAudio : Bool
  filename : String
  audio : List Nat
deriving DecidableEq

/-- Embeds `process_intro` from `src/app.py` lines 177-205: the POST handler
body, returning the JSON envelope and the collaborator-call flag. -/
def process_intro (req : IntroRequest) (gemini : GeminiOutcome) :
    Envelope × Bool :=
  if req.isJson = false then (error_response "Request must be JSON", false)
  else if req.hasTextAndScenario = false then
    (error_response "Missing text or scenario", false)
  else
    let r := process_intro_text gemini
    ({ success := !(hasMarker r.1), field := FieldName.response, parts := r.2 },
     true)

/-- Embeds `process_conversation` from `src/app.py` lines 207-245: the POST
handler body. -/
def process_conversation (req : AudioUploadRequest) (gemini : GeminiOutcome) :
    Envelope × Bool :=
  if req.hasAudio = false then (error_response "Missing audio file", false)
  else if req.filename = "" then (error_response "No selected file", false)
  else if req.audio.length < 100 then (error_response "Audio too short", false)
  else
    let r := process_conversation_with_gemini req.audio gemini
    ({ success := !(hasMarker r.1.1), field := FieldName.response, parts := r.1.2 },
     r.2)

/-- Embeds `process_audio` from `src/app.py` lines 247-302: the POST handler
body.  Note that on the path reaching the collaborator the handler
serializes `'success': True` unconditionally and names its part list
`feedback`. -/
def process_audio (req : AudioUploadRequest) (gemini : GeminiOutcome) :
    Envelope × Bool :=
  if req.hasAudio = false then (error_response "No audio file received", false)
  else if req.filename = "" then (error_response "Empty filename", false)
  else if req.audio.length < 100 then (error_response "Audio too short", false)
  else
    let r := process_with_gemini req.audio gemini
    ({ success := true, field := FieldName.feedback,
       parts := mkParts (extract_segments r.1) },
     r.2)

/-- A 100-byte audio payload, the smallest size passing the guards. -/
def audio100 : List Nat := List.replicate 100 0

-- Sanity checks of the embedding on concrete strings.
example : extract_segments "[en] Hello there! [es] ¡Hola!" =
    [("en", "Hello there!"), ("es", "¡Hola!")] := by decide
example : extract_segments "no tags at all" = [] := by decide
example : extract_segments "[en] Hello [xx] world" = [("en", "Hello")] := by decide
example : extract_segments "[en]hi\n\nrest [es]x" = [("en", "hi"), ("es", "x")] := by decide
example : extract_segments "[en]  \t [es]x" = [("es", "x")] := by decide
example : extract_segments "lead [es]x" = [("es", "x")] := by decide
example : extract_segments "[en]hi\n" = [("en", "hi")] := by decide
example : (process_audio ⟨true, "a.webm", audio100⟩
    (GeminiOutcome.ok "[color=ff0000]x[/color]")).1.success = true := by decide
example : (process_conversation ⟨true, "a.webm", audio100⟩
    (GeminiOutcome.ok "[color=ff0000]x[/color]")).1.success = false := by decide
example : (process_conversation ⟨true, "a.webm", audio100⟩
    (GeminiOutcome.exn "[es] boom")).1.parts =
    [{ text := "boom", lang := "es", duration := 0 }] := by decide
example : (process_intro ⟨true, true⟩ (GeminiOutcome.ok "[en] hi")).1 =
    { success := true, field := FieldName.response,
      parts := [{ text := "hi", lang := "en", duration := 0 }] } := by decide

/-! ### Structural lemmas about the scanner -/

theorem seek_nil : scanAux ScanMode.seek [] = [] := rfl

theorem cap_nil (lang : String) (acc : List Char) :
    scanAux (ScanMode.cap lang acc) [] = [(lang, acc.reverse)] := rfl

theorem startsTag_false_of_head {c : Char} (h : ¬c = '[') (tl : List Char) :
    startsTag (c :: tl) = false := by
  rcases tl with _ | ⟨c2, _ | ⟨c3, _ | ⟨c4, rest⟩⟩⟩ <;> simp [startsTag, h]

theorem isBoundary_false_head {c : Char} {tl : List Char}
    (hb : isBoundary (c :: tl) = false) : ¬c = '[' := by
  rcases tl with _ | ⟨b, tl⟩ <;> simp [isBoundary] at hb <;> exact hb.1

/-- A failed tag match at the current position makes `re.findall` move
one character to the right. -/
theorem seek_step {c : Char} {tl : List Char} (h : startsTag (c :: tl) = false) :
    scanAux ScanMode.seek (c :: tl) = scanAux ScanMode.seek tl := by
  rcases tl with _ | ⟨c2, _ | ⟨c3, _ | ⟨c4, rest⟩⟩⟩
  · rfl
  · rfl
  · rfl
  · simp only [startsTag] at h
    simp [scanAux, h]

theorem seek_tag_es (rest : List Char) :
    scanAux ScanMode.seek ('[' :: 'e' :: 's' :: ']' :: rest) =
      scanAux (ScanMode.cap "es" []) rest := by
  simp [scanAux, flush]

theorem seek_tag_en (rest : List Char) :
    scanAux ScanMode.seek ('[' :: 'e' :: 'n' :: ']' :: rest) =
      scanAux (ScanMode.cap "en" []) rest := by
  simp [scanAux, flush]

theorem cap_tag_es (lang : String) (acc rest : List Char) :
    scanAux (ScanMode.cap lang acc) ('[' :: 'e' :: 's' :: ']' :: rest) =
      (lang, acc.reverse) :: scanAux (ScanMode.cap "es" []) rest := by
  simp [scanAux, flush]

theorem cap_tag_en (lang : String) (acc rest : List Char) :
    scanAux (ScanMode.cap lang acc) ('[' :: 'e' :: 'n' :: ']' :: rest) =
      (lang, acc.reverse) :: scanAux (ScanMode.cap "en" []) rest := by
  simp [scanAux, flush]

/-- While no boundary is in sight, a capture consumes the next character. -/
theorem cap_step {c : Char} {tl : List Char} (hb : isBoundary (c :: tl) = false)
    (lang : String) (acc : List Char) :
    scanAux (ScanMode.cap lang acc) (c :: tl) =
      scanAux (ScanMode.cap lang (c :: acc)) tl := by
  have hc : ¬c = '[' := isBoundary_false_head hb
  rcases tl with _ | ⟨c2, _ | ⟨c3, _ | ⟨c4, rest⟩⟩⟩ <;> simp [scanAux, hb, hc]

theorem startsTag_shape {cs : List Char} (h : startsTag cs = true) :
    ∃ c3 rest, cs = '[' :: 'e' :: c3 :: ']' :: rest ∧ (c3 = 's' ∨ c3 = 'n') := by
  rcases cs with _ | ⟨c1, _ | ⟨c2, _ | ⟨c3, _ | ⟨c4, rest⟩⟩⟩⟩ <;>
    simp [startsTag] at h
  obtain ⟨⟨⟨h1, h2⟩, h3⟩, h4⟩ := h
  exact ⟨c3, rest, by simp [h1, h2, h4], h3⟩

/-- At a boundary the pending capture is emitted and the scan resumes at
the boundary position (in seek mode). -/
theorem cap_emit {c : Char} {tl : List Char} (hb : isBoundary (c :: tl) = true)
    (lang : String) (acc : List Char) :
    scanAux (ScanMode.cap lang acc) (c :: tl) =
      (lang, acc.reverse) :: scanAux ScanMode.seek (c :: tl) := by
  by_cases hst : startsTag (c :: tl) = true
  · obtain ⟨c3, rest, hcs, hc3⟩ := startsTag_shape hst
    have h1 : c = '[' := by injection hcs
    have h2 : tl = 'e' :: c3 :: ']' :: rest := by injection hcs
    subst h1; subst h2
    rcases hc3 with h | h <;> subst h
    · rw [cap_tag_es, seek_tag_es]
    · rw [cap_tag_en, seek_tag_en]
  · have hst' : startsTag (c :: tl) = false := by
      simpa using hst
    rw [seek_step hst']
    rcases tl with _ | ⟨c2, _ | ⟨c3, _ | ⟨c4, rest⟩⟩⟩ <;>
      simp only [startsTag] at hst' <;> simp [scanAux, hb, hst']

/-! ### The lazy capture -/

theorem captureContent_nil : captureContent [] = ([], []) := rfl

theorem captureContent_cons (c : Char) (rest : List Char) :
    captureContent (c :: rest) =
      if isBoundary (c :: rest) then ([], c :: rest)
      else (c :: (captureContent rest).1, (captureContent rest).2) := rfl

theorem captureContent_append (cs : List Char) :
    (captureContent cs).1 ++ (captureContent cs).2 = cs := by
  induction cs with
  | nil => rfl
  | cons c rest ih =>
    rw [captureContent_cons]
    by_cases hb : isBoundary (c :: rest) = true
    · simp [hb]
    · simp only [Bool.not_eq_true] at hb
      simp [hb, ih]

theorem captureContent_snd_length (cs : List Char) :
    (captureContent cs).2.length ≤ cs.length := by
  conv_rhs => rw [← captureContent_append cs]
  simp

theorem captureContent_no_bracket (cs : List Char) :
    '[' ∉ (captureContent cs).1 := by
  induction cs with
  | nil => simp [captureContent_nil]
  | cons c rest ih =>
    rw [captureContent_cons]
    by_cases hb : isBoundary (c :: rest) = true
    · simp [hb]
    · simp only [Bool.not_eq_true] at hb
      have hc : ¬c = '[' := isBoundary_false_head hb
      simp [hb, ih]
      exact fun h => hc h.symm

theorem captureContent_head {cs : List Char} :
    (captureContent cs).1 = [] ∨ (captureContent cs).1.head? = cs.head? := by
  rcases cs with _ | ⟨c, rest⟩
  · exact Or.inl rfl
  · rw [captureContent_cons]
    by_cases hb : isBoundary (c :: rest) = true
    · simp [hb]
    · simp only [Bool.not_eq_true] at hb
      simp [hb]

theorem captureContent_no_blank (cs : List Char) :
    hasBlankLine (captureContent cs).1 = false := by
  induction cs with
  | nil => rfl
  | cons c rest ih =>
    rw [captureContent_cons]
    by_cases hb : isBoundary (c :: rest) = true
    · simp [hb, hasBlankLine]
    · simp only [Bool.not_eq_true] at hb
      simp only [hb, Bool.false_eq_true, if_false]
      rcases hh : (captureContent rest).1 with _ | ⟨b, r⟩
      · simp [hasBlankLine]
      · have hb2 : hasBlankLine (b :: r) = false := by rw [← hh]; exact ih
        simp only [hasBlankLine, hb2, Bool.or_false]
        rcases @captureContent_head rest with h0 | h0
        · rw [h0] at hh; cases hh
        · rcases rest with _ | ⟨t1, rest'⟩
          · simp [captureContent_nil] at hh
          · rw [hh] at h0
            simp only [List.head?_cons, Option.some.injEq] at h0
            subst h0
            simp only [isBoundary] at hb
            rcases rest' with _ | ⟨t2, rest''⟩
            · simp only [Bool.or_eq_false_iff, decide_eq_false_iff_not] at hb
              simp [hb.2]
            · simp only [Bool.or_eq_false_iff, Bool.and_eq_false_iff,
                decide_eq_false_iff_not] at hb
              rcases hb.2 with h | h <;> simp [h]

/-- Master description of a running capture: it produces the lazy
capture of the remaining input and resumes scanning at the boundary. -/
theorem capture_eq (cs : List Char) : ∀ (lang : String) (acc : List Char),
    scanAux (ScanMode.cap lang acc) cs =
      (lang, acc.reverse ++ (captureContent cs).1) ::
        scanAux ScanMode.seek (captureContent cs).2 := by
  induction cs with
  | nil => intro lang acc; simp [cap_nil, captureContent_nil, seek_nil]
  | cons c tl ih =>
    intro lang acc
    by_cases hb : isBoundary (c :: tl) = true
    · rw [cap_emit hb, captureContent_cons]
      simp [hb]
    · simp only [Bool.not_eq_true] at hb
      rw [cap_step hb, ih, captureContent_cons]
      simp [hb]

/-! ### Seek-mode lemmas -/

/-- Every raw match of the scan carries a recognized language and a text
that is the lazy capture of some suffix of the input. -/
theorem findTagged_elems : ∀ (n : Nat) (cs : List Char), cs.length ≤ n →
    ∀ p ∈ scanAux ScanMode.seek cs,
      (p.1 = "es" ∨ p.1 = "en") ∧ ∃ sub : List Char, p.2 = (captureContent sub).1 := by
  intro n
  induction n with
  | zero =>
    intro cs hlen p hp
    rw [List.length_eq_zero.mp (Nat.le_zero.mp hlen)] at hp
    simp [seek_nil] at hp
  | succ n ih =>
    intro cs hlen p hp
    rcases cs with _ | ⟨c, tl⟩
    · simp [seek_nil] at hp
    · by_cases hst : startsTag (c :: tl) = true
      · obtain ⟨c3, rest, hcs, hc3⟩ := startsTag_shape hst
        have h1 : c = '[' := by injection hcs
        have h2 : tl = 'e' :: c3 :: ']' :: rest := by injection hcs
        subst h1; subst h2
        have hrest : (captureContent rest).2.length ≤ n := by
          have h1 := captureContent_snd_length rest
          have h2 : rest.length + 4 ≤ n + 1 := by simpa using hlen
          omega
        rcases hc3 with h | h <;> subst h
        · rw [seek_tag_es, capture_eq] at hp
          rcases List.mem_cons.mp hp with h | h
          · subst h; exact ⟨Or.inl rfl, rest, by simp⟩
          · exact ih _ hrest p h
        · rw [seek_tag_en, capture_eq] at hp
          rcases List.mem_cons.mp hp with h | h
          · subst h; exact ⟨Or.inr rfl, rest, by simp⟩
          · exact ih _ hrest p h
      · have hst' : startsTag (c :: tl) = false := by simpa using hst
        rw [seek_step hst'] at hp
        exact ih tl (by simpa using Nat.le_of_succ_le_succ (by simpa using hlen)) p hp

/-- Characters before the first position where the tag pattern matches
are skipped by the scan. -/
theorem seek_drop_untagged : ∀ (pre rest : List Char),
    (∀ i, i < pre.length → startsTag (List.drop i (pre ++ rest)) = false) →
    scanAux ScanMode.seek (pre ++ rest) = scanAux ScanMode.seek rest := by
  intro pre
  induction pre with
  | nil => intro rest _; rfl
  | cons c pre' ih =>
    intro rest h
    have h0 : startsTag (c :: (pre' ++ rest)) = false := by
      have := h 0 (by simp)
      simpa using this
    rw [List.cons_append, seek_step h0]
    exact ih rest fun i hi => by
      have := h (i + 1) (by simpa using Nat.succ_lt_succ hi)
      simpa using this

/-! ### Stripping -/

theorem pyStrip_sandwich (l : List Char) :
    ∃ u v, l = u ++ pyStrip l ++ v := by
  obtain ⟨u, hu⟩ := List.dropWhile_suffix (l := l) Char.isWhitespace
  obtain ⟨w, hw⟩ :=
    List.dropWhile_suffix (l := (l.dropWhile Char.isWhitespace).reverse) Char.isWhitespace
  refine ⟨u, w.reverse, ?_⟩
  have hA : l.dropWhile Char.isWhitespace = pyStrip l ++ w.reverse := by
    have := congrArg List.reverse hw
    simpa [pyStrip, List.reverse_append] using this.symm
  conv_lhs => rw [← hu, hA]
  rw [List.append_assoc]

theorem pyStrip_mem {x : Char} {l : List Char} (h : x ∈ pyStrip l) : x ∈ l := by
  obtain ⟨u, v, huv⟩ := pyStrip_sandwich l
  rw [huv]
  simp [h]

theorem head?_not_ws_of_dropWhile {l : List Char} :
    ∀ x, (l.dropWhile Char.isWhitespace).head? = some x → Char.isWhitespace x = false := by
  intro x hx
  rcases hd : l.dropWhile Char.isWhitespace with _ | ⟨a, t⟩
  · rw [hd] at hx; cases hx
  · rw [hd] at hx
    simp only [List.head?_cons, Option.some.injEq] at hx
    subst hx
    have := List.head_dropWhile_not Char.isWhitespace l (by rw [hd]; simp)
    simpa [hd] using this

theorem dropWhile_eq_self_of_head? {l : List Char}
    (h : ∀ x, l.head? = some x → Char.isWhitespace x = false) :
    l.dropWhile Char.isWhitespace = l := by
  rcases l with _ | ⟨a, t⟩
  · rfl
  · rw [List.dropWhile_cons, h a rfl]
    simp

theorem pyStrip_idem (l : List Char) : pyStrip (pyStrip l) = pyStrip l := by
  rcases hr : pyStrip l with _ | ⟨a, t⟩
  · rfl
  · -- the head of the stripped list is the head of `dropWhile ws l`
    have hstep1 : (a :: t).dropWhile Char.isWhitespace = a :: t := by
      apply dropWhile_eq_self_of_head?
      intro x hx
      simp only [List.head?_cons, Option.some.injEq] at hx
      subst hx
      -- a is the last element of `dropWhile ws ((dropWhile ws l).reverse)`,
      -- i.e. the head of `dropWhile ws l`
      have hrev : ((l.dropWhile Char.isWhitespace).reverse.dropWhile
          Char.isWhitespace).reverse = a :: t := by
        simpa [pyStrip] using hr
      have hgl : ((l.dropWhile Char.isWhitespace).reverse.dropWhile
          Char.isWhitespace).getLast? = some a := by
        rw [← List.head?_reverse, hrev]
        rfl
      obtain ⟨w, hw⟩ :=
        List.dropWhile_suffix (l := (l.dropWhile Char.isWhitespace).reverse)
          Char.isWhitespace
      have hgl2 : (l.dropWhile Char.isWhitespace).reverse.getLast? = some a := by
        rw [← hw, List.getLast?_append, hgl]
        rfl
      rw [List.getLast?_reverse] at hgl2
      exact head?_not_ws_of_dropWhile a hgl2
    have hstep2 : (a :: t).reverse.dropWhile Char.isWhitespace = (a :: t).reverse := by
      have hrev : ((l.dropWhile Char.isWhitespace).reverse.dropWhile
          Char.isWhitespace).reverse = a :: t := by
        simpa [pyStrip] using hr
      have : (a :: t).reverse =
          (l.dropWhile Char.isWhitespace).reverse.dropWhile Char.isWhitespace := by
        rw [← hrev, List.reverse_reverse]
      rw [this, List.dropWhile_idempotent]
    rw [← hr]
    conv_lhs => rw [hr]
    rw [pyStrip, hstep1, hstep2, List.reverse_reverse, hr]

/-! ### Blank lines and substrings -/

theorem hasBlankLine_iff (l : List Char) :
    hasBlankLine l = true ↔ ∃ s t, l = s ++ '\n' :: '\n' :: t := by
  induction l with
  | nil =>
    constructor
    · intro h; exact Bool.noConfusion h
    · rintro ⟨s, t, h⟩
      rcases s with _ | ⟨x, s⟩ <;> simp at h
  | cons a l ih =>
    rcases l with _ | ⟨b, r⟩
    · constructor
      · intro h; exact Bool.noConfusion h
      · rintro ⟨s, t, h⟩
        rcases s with _ | ⟨x, _ | ⟨y, s⟩⟩ <;> simp at h
    · rw [show hasBlankLine (a :: b :: r) =
          ((a = '\n' && b = '\n') || hasBlankLine (b :: r)) from rfl]
      constructor
      · intro h
        rcases Bool.or_eq_true_iff.mp h with h | h
        · obtain ⟨h1, h2⟩ := Bool.and_eq_true_iff.mp h
          refine ⟨[], r, ?_⟩
          simp only [decide_eq_true_eq] at h1 h2
          simp [h1, h2]
        · obtain ⟨s, t, hst⟩ := ih.mp h
          exact ⟨a :: s, t, by simp [hst]⟩
      · rintro ⟨s, t, hst⟩
        rcases s with _ | ⟨x, s⟩
        · simp only [List.nil_append, List.cons.injEq] at hst
          obtain ⟨h1, h2, _⟩ := hst
          simp [h1, h2]
        · simp only [List.cons_append, List.cons.injEq] at hst
          obtain ⟨_, h2⟩ := hst
          have : hasBlankLine (b :: r) = true := ih.mpr ⟨s, t, h2⟩
          simp [this]

theorem hasBlankLine_sandwich {m u v : List Char}
    (h : hasBlankLine (u ++ m ++ v) = false) : hasBlankLine m = false := by
  by_contra hm
  simp only [Bool.not_eq_false] at hm
  obtain ⟨s, t, hst⟩ := (hasBlankLine_iff m).mp hm
  have : hasBlankLine (u ++ m ++ v) = true :=
    (hasBlankLine_iff _).mpr ⟨u ++ s, t ++ v, by simp [hst]⟩
  rw [h] at this
  cases this

theorem isPre_append_self (n x : List Char) : isPre n (n ++ x) = true := by
  induction n with
  | nil => rfl
  | cons a n ih => simp [isPre, ih]

theorem hasSub_of_head (n x : List Char) (hn : n ≠ []) :
    hasSub n (n ++ x) = true := by
  rcases n with _ | ⟨a, n'⟩
  · cases hn rfl
  · rw [show hasSub (a :: n') ((a :: n') ++ x) =
        (isPre (a :: n') ((a :: n') ++ x) || hasSub (a :: n') (n' ++ x)) from rfl]
    rw [isPre_append_self]
    rfl

/-- Any string of the form `"[color=ff0000]" ++ m` passes the in-band
error-marker check. -/
theorem hasMarker_wrap (m : String) : hasMarker ("[color=ff0000]" ++ m) = true := by
  rw [hasMarker, show ("[color=ff0000]" ++ m).toList =
      "[color=ff0000]".toList ++ m.toList from String.data_append _ _]
  exact hasSub_of_head _ _ (by decide)

/-! ### Helper lemmas about the endpoints -/

theorem hasBlankLine_tail {c : Char} {l : List Char}
    (h : hasBlankLine (c :: l) = false) : hasBlankLine l = false := by
  rcases l with _ | ⟨d, r⟩
  · rfl
  · rw [show hasBlankLine (c :: d :: r) =
        ((c = '\n' && d = '\n') || hasBlankLine (d :: r)) from rfl] at h
    exact (Bool.or_eq_false_iff.mp h).2

theorem error_response_shape (msg : String) :
    (error_response msg).success = false ∧ (error_response msg).parts.length = 1 ∧
      ∀ p ∈ (error_response msg).parts, hasMarker p.text = true ∧ p.lang = "es" := by
  refine ⟨rfl, rfl, ?_⟩
  intro p hp
  simp only [error_response, List.mem_singleton] at hp
  subst hp
  exact ⟨hasMarker_wrap _, rfl⟩

theorem error_response_duration (msg : String) :
    ∀ p ∈ (error_response msg).parts, p.duration = 0 := by
  intro p hp
  simp only [error_response, List.mem_singleton] at hp
  subst hp
  rfl

theorem mkParts_duration (segments : List (String × String)) :
    ∀ p ∈ mkParts segments, p.duration = 0 := by
  intro p hp
  simp only [mkParts, List.mem_map] at hp
  obtain ⟨q, _, hq⟩ := hp
  subst hq
  rfl

theorem append_ne_empty_of_ne {s : String} (t : String) (h : s ≠ "") : s ++ t ≠ "" := by
  intro hcon
  apply h
  have := congrArg String.data hcon
  rw [String.data_append] at this
  rcases hd : s.data with _ | ⟨a, u⟩
  · exact String.ext_iff.mpr hd
  · rw [hd] at this; cases this

theorem pcwg_short {audio : List Nat} (h : audio.length < 100) (g : GeminiOutcome) :
    process_conversation_with_gemini audio g =
      (("[color=ff0000]Error: Empty or too short audio[/color]",
        [{ text := "[color=ff0000]Empty audio[/color]", lang := "es", duration := 0 }]),
       false) := by
  rw [process_conversation_with_gemini, if_pos h]

theorem pwg_ok {audio : List Nat} (h : ¬audio.length = 0) (t : String) :
    process_with_gemini audio (GeminiOutcome.ok t) = (t, true) := by
  rw [process_with_gemini, if_neg h]

theorem pwg_exn {audio : List Nat} (h : ¬audio.length = 0) (e : String) :
    process_with_gemini audio (GeminiOutcome.exn e) =
      ("[color=ff0000]Gemini error: " ++ (e ++ "[/color]"), true) := by
  rw [process_with_gemini, if_neg h]

theorem pcwg_ok_empty {audio : List Nat} (hlen : ¬audio.length < 100) :
    process_conversation_with_gemini audio (GeminiOutcome.ok "") =
      (("[color=ff0000]Empty response[/color]",
        [{ text := "[color=ff0000]Empty response[/color]", lang := "es", duration := 0 }]),
       true) := by
  have h0 : ¬audio.length = 0 := by omega
  rw [process_conversation_with_gemini, if_neg hlen]
  simp [pwg_ok h0]

theorem pcwg_ok_invalid {audio : List Nat} (hlen : ¬audio.length < 100)
    {t : String} (ht : t ≠ "") (hx : extract_segments t = []) :
    process_conversation_with_gemini audio (GeminiOutcome.ok t) =
      (("[color=ff0000]Invalid format[/color]",
        [{ text := "[color=ff0000]Invalid format[/color]", lang := "es", duration := 0 }]),
       true) := by
  have h0 : ¬audio.length = 0 := by omega
  rw [process_conversation_with_gemini, if_neg hlen]
  simp [pwg_ok h0, ht, hx]

theorem pcwg_ok_good {audio : List Nat} (hlen : ¬audio.length < 100)
    {t : String} (ht : t ≠ "") (hx : extract_segments t ≠ []) :
    process_conversation_with_gemini audio (GeminiOutcome.ok t) =
      ((t, mkParts (extract_segments t)), true) := by
  have h0 : ¬audio.length = 0 := by omega
  rw [process_conversation_with_gemini, if_neg hlen]
  simp [pwg_ok h0, ht, hx]

theorem pcwg_exn_invalid {audio : List Nat} (hlen : ¬audio.length < 100)
    {e : String}
    (hx : extract_segments ("[color=ff0000]Gemini error: " ++ (e ++ "[/color]")) = []) :
    process_conversation_with_gemini audio (GeminiOutcome.exn e) =
      (("[color=ff0000]Invalid format[/color]",
        [{ text := "[color=ff0000]Invalid format[/color]", lang := "es", duration := 0 }]),
       true) := by
  have h0 : ¬audio.length = 0 := by omega
  have hne : ("[color=ff0000]Gemini error: " ++ (e ++ "[/color]")) ≠ "" :=
    append_ne_empty_of_ne _ (by decide)
  rw [process_conversation_with_gemini, if_neg hlen]
  simp [pwg_exn h0, hne, hx]

theorem pcwg_exn_good {audio : List Nat} (hlen : ¬audio.length < 100)
    {e : String}
    (hx : extract_segments ("[color=ff0000]Gemini error: " ++ (e ++ "[/color]")) ≠ []) :
    process_conversation_with_gemini audio (GeminiOutcome.exn e) =
      (("[color=ff0000]Gemini error: " ++ (e ++ "[/color]"),
        mkParts (extract_segments ("[color=ff0000]Gemini error: " ++ (e ++ "[/color]")))),
       true) := by
  have h0 : ¬audio.length = 0 := by omega
  have hne : ("[color=ff0000]Gemini error: " ++ (e ++ "[/color]")) ≠ "" :=
    append_ne_empty_of_ne _ (by decide)
  rw [process_conversation_with_gemini, if_neg hlen]
  simp [pwg_exn h0, hne, hx]

/-! ### Claim theorems -/

theorem filterMap_segKeep_of_nonblank : ∀ (l : List (String × List Char)),
    (∀ p ∈ l, pyStrip p.2 ≠ []) →
    l.filterMap segKeep = l.map fun p => (p.1, pyStrip p.2) := by
  intro l
  induction l with
  | nil => intro _; rfl
  | cons a l ih =>
    intro h
    have ha : segKeep a = some (a.1, pyStrip a.2) := by
      rw [segKeep, if_neg (h a (List.mem_cons_self a l))]
    simp only [List.filterMap_cons, ha, List.map_cons]
    rw [ih fun p hp => h p (List.mem_cons_of_mem a hp)]

/-- Claim C1: whenever every raw match of the tag scan has non-blank
content, `extract_segments` returns exactly one segment per match, in
the order the tags appear, each whitespace-trimmed; and on the input
`"[en] Hello there! [es] ¡Hola!"` it returns the segments
`(en, "Hello there!")` and `(es, "¡Hola!")` in that order. -/
theorem c1_segment_count_order_trim :
    (∀ (s : String), (∀ p ∈ findTagged s.toList, pyStrip p.2 ≠ []) →
      extract_segments s =
        (findTagged s.toList).map (fun p => (p.1, String.mk (pyStrip p.2))) ∧
      (extract_segments s).length = (findTagged s.toList).length) ∧
    extract_segments "[en] Hello there! [es] ¡Hola!" =
      [("en", "Hello there!"), ("es", "¡Hola!")] := by
  constructor
  · intro s h
    have hfm := filterMap_segKeep_of_nonblank (findTagged s.toList) h
    constructor
    · rw [extract_segments, extractSegs, hfm, List.map_map]
      rfl
    · rw [extract_segments, extractSegs, hfm]
      simp
  · decide

/-- Witness for C1 at a concrete input with two non-blank matches. -/
theorem c1_segment_count_order_trim_witness :
    extract_segments "[en] a [es] b" =
      (findTagged "[en] a [es] b".toList).map
        (fun p => (p.1, String.mk (pyStrip p.2))) :=
  (c1_segment_count_order_trim.1 "[en] a [es] b" (by decide)).1

/-- Claim C2 counterexample: on `"[en] Hello [xx] world"` the claim
predicts the single segment text `"Hello [xx] world"` (everything from
the `[en]` tag to the next recognized tag or end of string, trimmed,
with the unrecognized `[xx]` not cutting the segment short), but the
code stops the capture at the `[` of `[xx]` and returns `"Hello"`. -/
theorem c2_counterexample :
    extract_segments "[en] Hello [xx] world" = [("en", "Hello")] ∧
    [(("en" : String), ("Hello" : String))] ≠ [("en", "Hello [xx] world")] := by
  exact ⟨by decide, by decide⟩

/-- A bracket-free, blank-line-free block of text followed by a `[` is
captured whole, with the scan resuming at the `[`. -/
theorem captureContent_to_bracket : ∀ (a b : List Char),
    '[' ∉ a → hasBlankLine a = false →
    captureContent (a ++ '[' :: b) = (a, '[' :: b) := by
  intro a
  induction a with
  | nil =>
    intro b _ _
    rw [List.nil_append, captureContent_cons]
    rcases b with _ | ⟨d, b'⟩ <;> simp [isBoundary]
  | cons c a' ih =>
    intro b ha hb
    have hc : ¬c = '[' := fun h => ha (by rw [h]; exact List.mem_cons_self _ _)
    have hbnd : isBoundary (c :: (a' ++ '[' :: b)) = false := by
      rcases a' with _ | ⟨d, a''⟩
      · simp [isBoundary, hc]
      · have hp : (decide (c = '\n') && decide (d = '\n')) = false := by
          rw [show hasBlankLine (c :: d :: a'') =
              ((c = '\n' && d = '\n') || hasBlankLine (d :: a'')) from rfl] at hb
          exact (Bool.or_eq_false_iff.mp hb).1
        simp only [List.cons_append, isBoundary, hp, hc]
        simp [hc]
    rw [List.cons_append, captureContent_cons, hbnd]
    have ha' : '[' ∉ a' := fun h => ha (List.mem_cons_of_mem _ h)
    rw [ih b ha' (hasBlankLine_tail hb)]
    simp

/-- Claim C2 amended: a running capture extends exactly to the next `[`
character — whether or not it begins a recognized tag — (or to a blank
line or the end of input, not exercised here), and the scan resumes at
that `[`.  Unrecognized bracketed markers are never matched as tags, but
their opening bracket does terminate the preceding segment's capture. -/
theorem c2_amended_capture_stops_at_bracket :
    ∀ (a b : List Char) (lang : String) (acc : List Char),
    '[' ∉ a → hasBlankLine a = false →
    scanAux (ScanMode.cap lang acc) (a ++ '[' :: b) =
      (lang, acc.reverse ++ a) :: scanAux ScanMode.seek ('[' :: b) := by
  intro a b lang acc ha hb
  rw [capture_eq, captureContent_to_bracket a b ha hb]

/-- Witness for the amended C2 at a concrete capture cut short by an
unrecognized marker. -/
theorem c2_amended_capture_stops_at_bracket_witness :
    scanAux (ScanMode.cap "en" []) ([' ', 'H', 'i', ' '] ++ '[' :: ['x', 'x', ']']) =
      [("en", [' ', 'H', 'i', ' '])] := by
  rw [c2_amended_capture_stops_at_bracket _ _ _ _ (by decide) (by decide)]
  decide

/-- Claim C3: `process_intro` and `process_conversation` do derive
`success = false` from a reply containing `[color=ff0000]`, but
`process_audio` hardcodes `'success': True` on the path that reaches the
collaborator, so the same marker-carrying reply yields `success = true`
there, contradicting the claim (and the error-protocol convention the
rest of the code follows). -/
theorem c3_marker_forces_failure_divergence :
    (process_intro ⟨true, true⟩
      (GeminiOutcome.ok "[color=ff0000]x[/color]")).1.success = false ∧
    (process_conversation ⟨true, "a.webm", audio100⟩
      (GeminiOutcome.ok "[color=ff0000]x[/color]")).1.success = false ∧
    (process_audio ⟨true, "a.webm", audio100⟩
      (GeminiOutcome.ok "[color=ff0000]x[/color]")).1.success = true := by
  exact ⟨by decide, by decide, by decide⟩

/-- Claim C5: a tagless reply does produce zero segments, and the
conversational endpoints map that to the `Invalid format` failure
envelope, but `process_audio` returns `success = true` with an empty
`feedback` list — exactly the "empty success" the claim rules out. -/
theorem c5_no_tags_empty_success_divergence :
    extract_segments "Hello there." = [] ∧
    (process_conversation ⟨true, "a.webm", audio100⟩
        (GeminiOutcome.ok "Hello there.")).1 =
      { success := false, field := FieldName.response
        parts := [{ text := "[color=ff0000]Invalid format[/color]"
                    lang := "es", duration := 0 }] } ∧
    (process_intro ⟨true, true⟩ (GeminiOutcome.ok "Hello there.")).1 =
      { success := false, field := FieldName.response
        parts := [{ text := "[color=ff0000]Invalid format[/color]"
                    lang := "es", duration := 0 }] } ∧
    (process_audio ⟨true, "a.webm", audio100⟩
        (GeminiOutcome.ok "Hello there.")).1 =
      { success := true, field := FieldName.feedback, parts := [] } := by
  exact ⟨by decide, by decide, by decide, by decide⟩

/-- Claim C6: a present audio file with a non-empty filename whose
payload is shorter than 100 bytes makes both audio endpoints return the
standard `Audio too short` error envelope with the collaborator never
invoked (the call flag is `false`). -/
theorem c6_short_audio_short_circuits :
    ∀ (fn : String) (audio : List Nat) (g : GeminiOutcome),
    fn ≠ "" → audio.length < 100 →
    process_conversation ⟨true, fn, audio⟩ g = (error_response "Audio too short", false) ∧
    process_audio ⟨true, fn, audio⟩ g = (error_response "Audio too short", false) := by
  intro fn audio g hfn hlen
  constructor
  · rw [process_conversation, if_neg (by simp), if_neg (by simpa using hfn),
      if_pos hlen]
  · rw [process_audio, if_neg (by simp), if_neg (by simpa using hfn),
      if_pos hlen]

/-- Witness for C6 with an empty payload. -/
theorem c6_short_audio_short_circuits_witness :
    process_conversation ⟨true, "a.webm", []⟩ (GeminiOutcome.ok "x") =
      (error_response "Audio too short", false) :=
  (c6_short_audio_short_circuits "a.webm" [] (GeminiOutcome.ok "x")
    (by decide) (by decide)).1

/-- Claim C7: when the tag pattern matches nowhere inside a leading
block of text, the scan — and hence `extract_segments` — behaves as if
the block were absent: the leading untagged content is dropped entirely. -/
theorem c7_leading_untagged_dropped :
    ∀ (pre rest : String),
    (∀ i, i < pre.toList.length →
      startsTag (List.drop i ((pre ++ rest).toList)) = false) →
    extract_segments (pre ++ rest) = extract_segments rest := by
  intro pre rest h
  have hdata : (pre ++ rest).toList = pre.toList ++ rest.toList :=
    String.data_append _ _
  have hseek : scanAux ScanMode.seek (pre.toList ++ rest.toList) =
      scanAux ScanMode.seek rest.toList :=
    seek_drop_untagged _ _ fun i hi => by rw [← hdata]; exact h i hi
  simp only [extract_segments, extractSegs, findTagged, hdata, hseek]

/-- Witness for C7: a sentence before the first tag is dropped. -/
theorem c7_leading_untagged_dropped_witness :
    extract_segments ("Hi. " ++ "[en] ok") = extract_segments "[en] ok" :=
  c7_leading_untagged_dropped "Hi. " "[en] ok" (by decide)

/-- Claim C4 counterexample: an external-call exception whose message
contains a recognized tag (`"[es] boom"`) is a failure condition, yet
the envelope's single part has text `"boom"`, which does not carry the
`[color=ff0000]...[/color]` marker — the reply text is parsed into
ordinary segments instead of the standard error part. -/
theorem c4_counterexample :
    (process_conversation ⟨true, "a.webm", audio100⟩
        (GeminiOutcome.exn "[es] boom")).1.success = false ∧
    (process_conversation ⟨true, "a.webm", audio100⟩
        (GeminiOutcome.exn "[es] boom")).1.parts =
      [{ text := "boom", lang := "es", duration := 0 }] ∧
    hasMarker "boom" = false := by
  exact ⟨by decide, by decide, by decide⟩

/-- Claim C4 amended: for the failure conditions — missing audio upload,
empty filename, empty or sub-100-byte payload, empty model output,
malformed (tagless) model output, and an external-call exception whose
rendered message parses to no segment — `process_conversation` returns
an envelope with `success = false` and a one-element part list whose
single part carries the `[color=ff0000]...[/color]` marker and has lang
`"es"`.  (The counterexample forces the exception case to be qualified:
a tag-carrying exception message is parsed into ordinary segments.) -/
theorem c4_amended_failure_envelope :
    ∀ (req : AudioUploadRequest) (g : GeminiOutcome),
    (req.hasAudio = false ∨ req.filename = "" ∨ req.audio.length < 100 ∨
      (∃ e, g = GeminiOutcome.exn e ∧
        extract_segments ("[color=ff0000]Gemini error: " ++ (e ++ "[/color]")) = []) ∨
      (∃ t, g = GeminiOutcome.ok t ∧ extract_segments t = [])) →
    (process_conversation req g).1.success = false ∧
    (process_conversation req g).1.parts.length = 1 ∧
    ∀ p ∈ (process_conversation req g).1.parts,
      hasMarker p.text = true ∧ p.lang = "es" := by
  intro req g h
  by_cases h1 : req.hasAudio = false
  · have heval : process_conversation req g = (error_response "Missing audio file", false) := by
      simp only [process_conversation, if_pos h1]
    rw [heval]
    exact error_response_shape _
  · by_cases h2 : req.filename = ""
    · have heval : process_conversation req g = (error_response "No selected file", false) := by
        simp only [process_conversation, if_neg h1, if_pos h2]
      rw [heval]
      exact error_response_shape _
    · by_cases h3 : req.audio.length < 100
      · have heval : process_conversation req g = (error_response "Audio too short", false) := by
          simp only [process_conversation, if_neg h1, if_neg h2, if_pos h3]
        rw [heval]
        exact error_response_shape _
      · rcases h with h | h | h | ⟨e, hg, hx⟩ | ⟨t, hg, hx⟩
        · exact absurd h h1
        · exact absurd h h2
        · exact absurd h h3
        · subst hg
          have heval : process_conversation req (GeminiOutcome.exn e) =
              ({ success := false, field := FieldName.response
                 parts := [{ text := "[color=ff0000]Invalid format[/color]"
                             lang := "es", duration := 0 }] }, true) := by
            simp only [process_conversation, if_neg h1, if_neg h2, if_neg h3,
              pcwg_exn_invalid h3 hx]
            decide
          rw [heval]
          refine ⟨rfl, rfl, ?_⟩
          intro p hp
          simp only [List.mem_singleton] at hp
          subst hp
          exact ⟨by decide, rfl⟩
        · subst hg
          by_cases ht : t = ""
          · subst ht
            have heval : process_conversation req (GeminiOutcome.ok "") =
                ({ success := false, field := FieldName.response
                   parts := [{ text := "[color=ff0000]Empty response[/color]"
                               lang := "es", duration := 0 }] }, true) := by
              simp only [process_conversation, if_neg h1, if_neg h2, if_neg h3,
                pcwg_ok_empty h3]
              decide
            rw [heval]
            refine ⟨rfl, rfl, ?_⟩
            intro p hp
            simp only [List.mem_singleton] at hp
            subst hp
            exact ⟨by decide, rfl⟩
          · have heval : process_conversation req (GeminiOutcome.ok t) =
                ({ success := false, field := FieldName.response
                   parts := [{ text := "[color=ff0000]Invalid format[/color]"
                               lang := "es", duration := 0 }] }, true) := by
              simp only [process_conversation, if_neg h1, if_neg h2, if_neg h3,
                pcwg_ok_invalid h3 ht hx]
              decide
            rw [heval]
            refine ⟨rfl, rfl, ?_⟩
            intro p hp
            simp only [List.mem_singleton] at hp
            subst hp
            exact ⟨by decide, rfl⟩

/-- Witness for the amended C4: empty model output on a valid request. -/
theorem c4_amended_failure_envelope_witness :
    (process_conversation ⟨true, "a.webm", audio100⟩
        (GeminiOutcome.ok "")).1.success = false ∧
    (process_conversation ⟨true, "a.webm", audio100⟩
        (GeminiOutcome.ok "")).1.parts.length = 1 := by
  have h := c4_amended_failure_envelope ⟨true, "a.webm", audio100⟩
    (GeminiOutcome.ok "")
    (Or.inr (Or.inr (Or.inr (Or.inr ⟨"", rfl, by decide⟩))))
  exact ⟨h.1, h.2.1⟩

theorem intro_text_duration (g : GeminiOutcome) :
    ∀ p ∈ (process_intro_text g).2, p.duration = 0 := by
  intro p hp
  rcases g with t | e
  · simp only [process_intro_text] at hp
    split at hp
    · simp only [List.mem_singleton] at hp; subst hp; rfl
    · split at hp
      · simp only [List.mem_singleton] at hp; subst hp; rfl
      · exact mkParts_duration _ p hp
  · simp only [process_intro_text, List.mem_singleton] at hp
    subst hp; rfl

theorem pcwg_duration (audio : List Nat) (g : GeminiOutcome) :
    ∀ p ∈ (process_conversation_with_gemini audio g).1.2, p.duration = 0 := by
  intro p hp
  simp only [process_conversation_with_gemini] at hp
  split at hp
  · simp only [List.mem_singleton] at hp; subst hp; rfl
  · split at hp
    · simp only [List.mem_singleton] at hp; subst hp; rfl
    · split at hp
      · simp only [List.mem_singleton] at hp; subst hp; rfl
      · exact mkParts_duration _ p hp

/-- Claim C8: every `ResponsePart` in the envelope of any endpoint, on
success and error paths alike, has `duration = 0`. -/
theorem c8_duration_always_zero :
    ∀ (ireq : IntroRequest) (creq areq : AudioUploadRequest) (g : GeminiOutcome),
    (∀ p ∈ (process_intro ireq g).1.parts, p.duration = 0) ∧
    (∀ p ∈ (process_conversation creq g).1.parts, p.duration = 0) ∧
    (∀ p ∈ (process_audio areq g).1.parts, p.duration = 0) := by
  intro ireq creq areq g
  refine ⟨?_, ?_, ?_⟩
  · intro p hp
    simp only [process_intro] at hp
    split at hp
    · exact error_response_duration _ p hp
    · split at hp
      · exact error_response_duration _ p hp
      · exact intro_text_duration g p hp
  · intro p hp
    simp only [process_conversation] at hp
    split at hp
    · exact error_response_duration _ p hp
    · split at hp
      · exact error_response_duration _ p hp
      · split at hp
        · exact error_response_duration _ p hp
        · exact pcwg_duration creq.audio g p hp
  · intro p hp
    simp only [process_audio] at hp
    split at hp
    · exact error_response_duration _ p hp
    · split at hp
      · exact error_response_duration _ p hp
      · split at hp
        · exact error_response_duration _ p hp
        · exact mkParts_duration _ p hp

/-- Witness for C8 at a concrete successful intro request. -/
theorem c8_duration_always_zero_witness :
    ({ text := "hi", lang := "en", duration := 0 } : ResponsePart).duration = 0 :=
  (c8_duration_always_zero ⟨true, true⟩ ⟨true, "a.webm", audio100⟩
    ⟨true, "a.webm", audio100⟩ (GeminiOutcome.ok "[en] hi")).1
    { text := "hi", lang := "en", duration := 0 } (by decide)

/-- Claim C9 counterexample: on a failing request (empty payload) the
pronunciation endpoint `process_audio` falls back to `error_response`,
whose part list is keyed `response`, not `feedback` — so `feedback` is
not used "on success and failure alike". -/
theorem c9_counterexample :
    (process_audio ⟨true, "a.webm", []⟩ (GeminiOutcome.ok "x")).1.field =
      FieldName.response := by
  decide

/-- Claim C9 amended: the conversational endpoints key their part list
`response` on every path; `process_audio` keys it `feedback` exactly on
the path that passes its guards and reaches the collaborator, and falls
back to the shared `error_response` envelope — keyed `response` — on its
failure paths. -/
theorem c9_amended_field_names :
    ∀ (ireq : IntroRequest) (creq areq : AudioUploadRequest) (g : GeminiOutcome),
    (process_intro ireq g).1.field = FieldName.response ∧
    (process_conversation creq g).1.field = FieldName.response ∧
    (¬areq.hasAudio = false → ¬areq.filename = "" → ¬areq.audio.length < 100 →
      (process_audio areq g).1.field = FieldName.feedback) ∧
    ((areq.hasAudio = false ∨ areq.filename = "" ∨ areq.audio.length < 100) →
      (process_audio areq g).1.field = FieldName.response) := by
  intro ireq creq areq g
  refine ⟨?_, ?_, ?_, ?_⟩
  · simp only [process_intro]
    split
    · rfl
    · split <;> rfl
  · simp only [process_conversation]
    split
    · rfl
    · split
      · rfl
      · split <;> rfl
  · intro h1 h2 h3
    simp only [process_audio, if_neg h1, if_neg h2, if_neg h3]
  · intro h
    by_cases h1 : areq.hasAudio = false
    · simp only [process_audio, if_pos h1]
      rfl
    · by_cases h2 : areq.filename = ""
      · simp only [process_audio, if_neg h1, if_pos h2]
        rfl
      · rcases h with h | h | h
        · exact absurd h h1
        · exact absurd h h2
        · simp only [process_audio, if_neg h1, if_neg h2, if_pos h]
          rfl

/-- Witness for the amended C9: a valid audio request yields `feedback`. -/
theorem c9_amended_field_names_witness :
    (process_audio ⟨true, "a.webm", audio100⟩ (GeminiOutcome.ok "x")).1.field =
      FieldName.feedback :=
  (c9_amended_field_names ⟨true, true⟩ ⟨true, "a.webm", audio100⟩
    ⟨true, "a.webm", audio100⟩ (GeminiOutcome.ok "x")).2.2.1
    (by decide) (by decide) (by decide)

/-- Claim C10: every pair returned by `extract_segments` has a language
that is exactly `"es"` or `"en"`, and a text that is non-empty, fixed
under whitespace-trimming, and contains neither `'['` nor a blank line. -/
theorem c10_segment_invariants :
    ∀ (s : String), ∀ q ∈ extract_segments s,
      (q.1 = "es" ∨ q.1 = "en") ∧ q.2 ≠ "" ∧ pyStripS q.2 = q.2 ∧
      '[' ∉ q.2.toList ∧ hasBlankLine q.2.toList = false := by
  intro s q hq
  simp only [extract_segments, List.mem_map] at hq
  obtain ⟨p', hp', hq'⟩ := hq
  subst hq'
  simp only [extractSegs, List.mem_filterMap] at hp'
  obtain ⟨p, hp, hkeep⟩ := hp'
  rw [segKeep] at hkeep
  by_cases hz : pyStrip p.2 = []
  · rw [if_pos hz] at hkeep; cases hkeep
  · rw [if_neg hz] at hkeep
    have hpeq : p' = (p.1, pyStrip p.2) := by
      injection hkeep with h; exact h.symm
    subst hpeq
    obtain ⟨hlang, sub, hsubeq⟩ :=
      findTagged_elems s.toList.length s.toList le_rfl p hp
    refine ⟨hlang, ?_, ?_, ?_, ?_⟩
    · intro hcon
      apply hz
      have := congrArg String.data hcon
      simpa using this
    · simp only [pyStripS]
      rw [show (String.mk (pyStrip p.2)).toList = pyStrip p.2 from rfl, pyStrip_idem]
    · rw [show ((p.1, String.mk (pyStrip p.2)).2).toList = pyStrip p.2 from rfl]
      intro hmem
      have hm2 := pyStrip_mem hmem
      rw [hsubeq] at hm2
      exact captureContent_no_bracket sub hm2
    · rw [show ((p.1, String.mk (pyStrip p.2)).2).toList = pyStrip p.2 from rfl]
      obtain ⟨u, v, huv⟩ := pyStrip_sandwich p.2
      have h0 : hasBlankLine p.2 = false := by
        rw [hsubeq]; exact captureContent_no_blank sub
      exact hasBlankLine_sandwich (by rw [← huv]; exact h0)

/-- Witness for C10 at a concrete extracted segment. -/
theorem c10_segment_invariants_witness :
    (("en" : String) = "es" ∨ ("en" : String) = "en") ∧ ("hi" : String) ≠ "" ∧
      pyStripS "hi" = "hi" ∧ '[' ∉ ("hi" : String).toList ∧
      hasBlankLine ("hi" : String).toList = false :=
  c10_segment_invariants "[en] hi" ("en", "hi") (by decide)
